import Mathlib

/-!
Verification of the drive-bot chunked object-store subsystem.

The definitions below are a shallow embedding of the transfer code:
- `src/transfer.py` (Discord variant: `upload`, `download`, `remove`),
- `src/core/telegram_utils/transfer.py` (Telegram variant: `upload`, `download`),
- `src/utils.py` (`load_json`, `save_json`, `get_file_chunks`).

Bytes are modelled as `List Nat`; the persistent drive database
(`database/drive.json`) as an insertion-ordered association list, matching
Python `dict` semantics (update-in-place on existing key, append on new key,
first-binding lookup).  Transport calls (Discord `send` / `fetch_message` /
`delete`, Telegram `send_document` / `get_message` / `delete_message`) are
modelled as oracle functions supplied as parameters; `none` / an error
constructor stands for the call raising an exception.
-/

namespace DriveBot

/-- A byte string, as read from / written to files. -/
abbrev Bytes := List Nat

/-- Chunk size constant from `settings.py`: `MAX_PART_SIZE = 10_000_000`. -/
def MAX_PART_SIZE : Nat := 10000000

/-- Ceiling division exactly as the source computes it:
`total_parts = (file_size + MAX_PART_SIZE - 1) // MAX_PART_SIZE`. -/
def ceilDiv (n C : Nat) : Nat := (n + C - 1) / C

/-- Insertion-ordered association list: the model of a Python `dict`. -/
abbrev AList (α : Type) := List (String × α)

/-- Lookup of a key (first binding), i.e. Python `d[k]` / `d.get(k)`. -/
def alookup {α : Type} : AList α → String → Option α
  | [], _ => none
  | (k, v) :: t, key => if k = key then some v else alookup t key

/-- Assignment `d[k] = v`: update the first binding in place, else append. -/
def ainsert {α : Type} : AList α → String → α → AList α
  | [], key, v => [(key, v)]
  | (k, w) :: t, key, v => if k = key then (key, v) :: t else (k, w) :: ainsert t key v

/-- Deletion `del d[k]`: remove the first binding of the key. -/
def aerase {α : Type} : AList α → String → AList α
  | [], _ => []
  | (k, w) :: t, key => if k = key then t else (k, w) :: aerase t key

/-- One manifest entry, the Python single-entry dict `{sha256_hex: message_id}`. -/
abbrev ManifestEntry := String × Nat

/-- The File Manifest: ordered list of (fingerprint, transport handle). -/
abbrev Manifest := List ManifestEntry

/-- The Drive: owner → filename → manifest, as persisted in `drive.json`. -/
abbrev DriveMap := AList (AList Manifest)

/-- The Telegram backend rows visible to one owner: filename → message-id list
(`files.fname`, `files.flinks` joined through `owns`). -/
abbrev TDb := List (String × List Nat)

/-! ### Chunk codec

The Discord `upload` reads the file with
`for part_num in range(1, total_parts + 1): chunk = f.read(MAX_PART_SIZE);
if not chunk: break`, the Telegram `upload` with the identical loop.
`readChunks C k s` is that loop: at most `k` reads of up to `C` bytes,
stopping at an empty read. -/

/-- The chunk-reading loop of both `upload` variants. -/
def readChunks (C : Nat) : Nat → Bytes → List Bytes
  | 0, _ => []
  | k + 1, s =>
    let chunk := s.take C
    if chunk.isEmpty then [] else chunk :: readChunks C k (s.drop C)

/-- Chunks produced by the Discord `upload`: a file of size `≤ MAX_PART_SIZE`
is sent whole as a single part (`data = saved_path.read_bytes()`), larger
files go through the read loop with `total_parts` reads. -/
def discordChunks (C : Nat) (file : Bytes) : List Bytes :=
  if file.length ≤ C then [file] else readChunks C (ceilDiv file.length C) file

/-- Chunks produced by the Telegram `upload`: always the read loop with
`total_parts = ceilDiv size C` reads (no single-part special case, so a
zero-byte file yields zero chunks). -/
def telegramChunks (C : Nat) (file : Bytes) : List Bytes :=
  readChunks C (ceilDiv file.length C) file

/-! ### Upload -/

/-- Result of one upload attempt.  `alreadyExists` is the duplicate-name
branch (Discord: "already uploaded, skipping", counted in `failed_uploads`;
Telegram: logged error and return).  `chunkFailed k` is the transport raising
on the store call for part `k`. -/
inductive UploadResult : Type
  | ok (parts : Nat)
  | alreadyExists
  | chunkFailed (k : Nat)
deriving DecidableEq

/-- Trace of the Discord per-part upload loop
(`hashes.append(await upload_and_hash_part(chunk))`). -/
structure PartsTrace : Type where
  stored : Manifest
  calls : List Nat
  failedAt : Option Nat
deriving DecidableEq

/-- The Discord upload loop over the chunk list, part numbers starting at `i`:
each iteration calls the transport store (`FILE_DUMP.send`); `store i = none`
models the call raising, which aborts the loop. -/
def uploadParts (hashFn : Bytes → String) (store : Nat → Option Nat) :
    Nat → List Bytes → PartsTrace
  | _, [] => ⟨[], [], none⟩
  | i, c :: cs =>
    match store i with
    | some h =>
      let t := uploadParts hashFn store (i + 1) cs
      ⟨(hashFn c, h) :: t.stored, i :: t.calls, t.failedAt⟩
    | none => ⟨[], [i], some i⟩

/-- Outcome of a Discord `upload` of one file.  `drive` is the persisted
`drive.json` content after the operation; `stored` the transport handles
successfully stored during the attempt; `deleteCalls` the handles given a
transport delete during the attempt (the Discord source has no rollback
code, so this is always `[]`). -/
structure UploadOutcome : Type where
  result : UploadResult
  drive : DriveMap
  calls : List Nat
  stored : List Nat
  deleteCalls : List Nat
deriving DecidableEq

/-- The per-file body of the Discord `upload` command (`src/transfer.py`):
duplicate check against `drive[username]`, chunking, per-part store, and on
full success `drive[username][filename] = hashes; save_json(drive, DRIVE)`.
`saveOk = false` models the JSON write raising: `save_json` catches every
exception internally and only logs it, so the success path still reports
`ok` and appends to `successful_uploads` while the drive file is unchanged. -/
def discordUpload (hashFn : Bytes → String) (store : Nat → Option Nat)
    (saveOk : Bool) (drive : DriveMap) (owner filename : String)
    (file : Bytes) : UploadOutcome :=
  let userFiles := (alookup drive owner).getD []
  if (alookup userFiles filename).isSome then
    ⟨.alreadyExists, drive, [], [], []⟩
  else
    let t := uploadParts hashFn store 1 (discordChunks MAX_PART_SIZE file)
    match t.failedAt with
    | some k => ⟨.chunkFailed k, drive, t.calls, t.stored.map Prod.snd, []⟩
    | none =>
      let drive2 := ainsert drive owner (ainsert userFiles filename t.stored)
      ⟨.ok t.stored.length, if saveOk then drive2 else drive, t.calls,
        t.stored.map Prod.snd, []⟩

/-- Trace of the Telegram per-part upload loop (`links.append(msg_id)`). -/
structure TTrace : Type where
  stored : List Nat
  calls : List Nat
  failedAt : Option Nat
deriving DecidableEq

/-- The Telegram upload loop: each iteration calls
`context.bot.send_document`; `store i = none` models the call raising. -/
def tUploadParts (store : Nat → Option Nat) : Nat → List Bytes → TTrace
  | _, [] => ⟨[], [], none⟩
  | i, _c :: cs =>
    match store i with
    | some h =>
      let t := tUploadParts store (i + 1) cs
      ⟨h :: t.stored, i :: t.calls, t.failedAt⟩
    | none => ⟨[], [i], some i⟩

/-- Outcome of a Telegram `upload`.  `db` is the owner's rows after the
operation (`insert_files` appends a new `(fname, flinks)` row). -/
structure TUploadOutcome : Type where
  result : UploadResult
  db : TDb
  calls : List Nat
  stored : List Nat
  deleteCalls : List Nat
deriving DecidableEq

/-- The duplicate check of the Telegram `upload`:
`if get_file_links(uid, filename, write_log):` — Python truthiness, so a row
whose link list is empty is treated the same as no row at all. -/
def tIsDuplicate (db : TDb) (filename : String) : Bool :=
  !((alookup db filename).getD []).isEmpty

/-- The body of the Telegram `upload` (`src/core/telegram_utils/transfer.py`):
truthiness duplicate check, chunked store loop, and on a store failure at
part `k` a best-effort `delete_message` for every handle in `links`
(chunks `1..k-1`) before returning without inserting; on full success
`insert_files` appends the row. -/
def telegramUpload (store : Nat → Option Nat) (db : TDb) (filename : String)
    (file : Bytes) : TUploadOutcome :=
  if tIsDuplicate db filename then
    ⟨.alreadyExists, db, [], [], []⟩
  else
    let t := tUploadParts store 1 (telegramChunks MAX_PART_SIZE file)
    match t.failedAt with
    | some k => ⟨.chunkFailed k, db, t.calls, t.stored, t.stored⟩
    | none => ⟨.ok t.stored.length, db ++ [(filename, t.stored)], t.calls, t.stored, []⟩

/-! ### Download -/

/-- Result of a download attempt.  `notFound` is the "not found in your
drive" branch; `failedAt k` the fetch for part `k` (1-based) raising. -/
inductive DownloadResult : Type
  | ok
  | notFound
  | failedAt (k : Nat)
deriving DecidableEq

/-- Trace of the per-part fetch loop of both `download` variants. -/
structure FetchTrace : Type where
  calls : List Nat
  written : Bytes
  failedAt : Option Nat
deriving DecidableEq

/-- The fetch loop, part numbers starting at `i`: each iteration issues one
transport fetch for the stored handle (`fetch_message(msg_id)` resp.
`get_message(msg_id)`); `fetch m = none` models the call raising (including
the "no attachment / no document found" branch), which aborts the loop. -/
def fetchParts (fetch : Nat → Option Bytes) : Nat → List Nat → FetchTrace
  | _, [] => ⟨[], [], none⟩
  | i, m :: ms =>
    match fetch m with
    | some bs =>
      let t := fetchParts fetch (i + 1) ms
      ⟨m :: t.calls, bs ++ t.written, t.failedAt⟩
    | none => ⟨[m], [], some i⟩

/-- Outcome of a download of one file.  `drive` is the metadata after the
operation; `output` the reconstructed file on disk (`none` when the partial
file was unlinked or never created). -/
structure DownloadOutcome : Type where
  result : DownloadResult
  drive : DriveMap
  calls : List Nat
  output : Option Bytes
deriving DecidableEq

/-- The per-file body of the Discord `download` command (`src/transfer.py`):
look the manifest up in `drive[username]`, fetch each part's message in
stored order appending its bytes to the output file; on any part failure
unlink the partially written file and stop.  The command never calls
`save_json`, so the persisted drive is returned unchanged. -/
def discordDownload (fetch : Nat → Option Bytes) (drive : DriveMap)
    (owner filename : String) : DownloadOutcome :=
  let userFiles := (alookup drive owner).getD []
  match alookup userFiles filename with
  | none => ⟨.notFound, drive, [], none⟩
  | some manifest =>
    let t := fetchParts fetch 1 (manifest.map Prod.snd)
    match t.failedAt with
    | some k => ⟨.failedAt k, drive, t.calls, none⟩
    | none => ⟨.ok, drive, t.calls, some t.written⟩

/-- Outcome of a Telegram `download`; `db` is the backend rows afterwards. -/
structure TDownloadOutcome : Type where
  result : DownloadResult
  db : TDb
  calls : List Nat
  output : Option Bytes
deriving DecidableEq

/-- The body of the Telegram `download`
(`src/core/telegram_utils/transfer.py`): `links = get_file_links(...)`,
`if not links: return` (so an empty link list reports not-found), then the
fetch loop writing parts in order, unlinking the partial file on failure.
The function only reads the database. -/
def tDownload (fetch : Nat → Option Bytes) (db : TDb)
    (filename : String) : TDownloadOutcome :=
  match (alookup db filename).getD [] with
  | [] => ⟨.notFound, db, [], none⟩
  | l :: ls =>
    let t := fetchParts fetch 1 (l :: ls)
    match t.failedAt with
    | some k => ⟨.failedAt k, db, t.calls, none⟩
    | none => ⟨.ok, db, t.calls, some t.written⟩

/-! ### Drive persistence -/

/-- The `load_json` of `src/utils.py`.  The argument models the state of the
file on disk: `none` — the file does not exist; `some none` — it exists but
`json.load` raises; `some (some d)` — it parses to `d`.  Both failure shapes
silently yield the empty dict. -/
def loadJson (disk : Option (Option DriveMap)) : DriveMap :=
  match disk with
  | none => []
  | some parsed => parsed.getD []

/-! ### Remove -/

/-- Result of one transport delete (`msg.delete()` after `fetch_message`):
`ok`; `notFound` — `discord.NotFound` raised (chunk already gone);
`forbidden` — `discord.Forbidden` (missing permissions); `err` — any other
exception. -/
inductive DelResult : Type
  | ok
  | notFound
  | forbidden
  | err
deriving DecidableEq

/-- Observable events of a `remove` run: one transport delete call per
chunk, and the removal of a file's manifest entry from the drive. -/
inductive REvent : Type
  | delCall (filename : String) (msgId : Nat)
  | manifestRemove (filename : String)
deriving DecidableEq

/-- The per-chunk delete loop of `remove`: `discord.NotFound` is caught and
the loop continues to the next chunk; `discord.Forbidden` or any other
exception makes the command return immediately.  Returns the delete calls
issued (in order) and whether the loop ran to completion. -/
def deleteParts (del : Nat → DelResult) (filename : String) :
    List Nat → List REvent × Bool
  | [] => ([], true)
  | m :: ms =>
    match del m with
    | .ok =>
      let r := deleteParts del filename ms
      (.delCall filename m :: r.1, r.2)
    | .notFound =>
      let r := deleteParts del filename ms
      (.delCall filename m :: r.1, r.2)
    | .forbidden => ([.delCall filename m], false)
    | .err => ([.delCall filename m], false)

/-- The metadata update after a file's chunks are deleted:
`if filename in drive[username]: del drive[username][filename];
if not drive[username]: del drive[username]; save_json(...)`. -/
def removeEntry (drive : DriveMap) (owner filename : String) : DriveMap :=
  match alookup drive owner with
  | none => drive
  | some userFiles =>
    if (alookup userFiles filename).isSome then
      let uf2 := aerase userFiles filename
      if uf2.isEmpty then aerase drive owner else ainsert drive owner uf2
    else drive

/-- The main loop of the Discord `remove` command over the requested
filenames: skip names absent from the owner's drive; delete the file's
chunks; on a tolerated completion update the metadata and continue, on a
`forbidden`/other delete error return at once leaving the drive as it was.
Returns the event trace and the final persisted drive. -/
def removeFiles (del : Nat → DelResult) (owner : String) :
    List String → DriveMap → List REvent × DriveMap
  | [], drive => ([], drive)
  | f :: fs, drive =>
    let userFiles := (alookup drive owner).getD []
    match alookup userFiles f with
    | none => removeFiles del owner fs drive
    | some manifest =>
      let r := deleteParts del f (manifest.map Prod.snd)
      if r.2 then
        let drive2 := removeEntry drive owner f
        let rest := removeFiles del owner fs drive2
        (r.1 ++ [.manifestRemove f] ++ rest.1, rest.2)
      else (r.1, drive)

/-- The Discord `remove` command (`src/transfer.py`): if any argument is
the keyword `all` (the source lowercases each argument before comparing, so
the model takes the already-lowercased arguments), the target list becomes
every filename of the owner (returning at once when the owner's drive is
empty); then the per-file removal loop runs. -/
def discordRemove (del : Nat → DelResult) (drive : DriveMap) (owner : String)
    (filenames : List String) : List REvent × DriveMap :=
  let userFiles := (alookup drive owner).getD []
  if filenames.contains "all" then
    if userFiles.isEmpty then ([], drive)
    else removeFiles del owner (userFiles.map Prod.fst) drive
  else removeFiles del owner filenames drive

/-! ### Chunk-codec lemmas -/

lemma ceilDiv_zero (C : Nat) : ceilDiv 0 C = 0 := by
  unfold ceilDiv
  rcases Nat.eq_zero_or_pos C with h | h
  · subst h; rfl
  · exact Nat.div_eq_of_lt (by omega)

lemma ceilDiv_pos_eq {n C : Nat} (hn : 1 ≤ n) (hC : 1 ≤ C) :
    ceilDiv n C = (n - 1) / C + 1 := by
  unfold ceilDiv
  have h : n + C - 1 = (n - 1) + C := by omega
  rw [h, Nat.add_div_right _ hC]

lemma ceilDiv_pos {n C : Nat} (hn : 1 ≤ n) (hC : 1 ≤ C) : 1 ≤ ceilDiv n C := by
  rw [ceilDiv_pos_eq hn hC]
  exact Nat.succ_le_succ (Nat.zero_le _)

lemma ceilDiv_succ {n C : Nat} (hn : 1 ≤ n) (hC : 1 ≤ C) :
    ceilDiv n C = ceilDiv (n - C) C + 1 := by
  rcases le_or_lt n C with h | h
  · have h1 : n - C = 0 := by omega
    rw [h1, ceilDiv_zero, ceilDiv_pos_eq hn hC, Nat.div_eq_of_lt (by omega)]
  · rw [ceilDiv_pos_eq hn hC, ceilDiv_pos_eq (by omega : 1 ≤ n - C) hC]
    have h2 : n - 1 = (n - C - 1) + C := by omega
    rw [h2, Nat.add_div_right _ hC]

lemma take_isEmpty_false {s : Bytes} {C : Nat} (hC : 1 ≤ C) (hne : s ≠ []) :
    (s.take C).isEmpty = false := by
  have hne2 : s.take C ≠ [] := by
    intro hEq
    rcases List.take_eq_nil_iff.mp hEq with h | h
    · omega
    · exact hne h
  cases hE : (s.take C).isEmpty
  · rfl
  · exact absurd (List.isEmpty_iff.mp hE) hne2

lemma readChunks_spec {C : Nat} (hC : 1 ≤ C) :
    ∀ (k : Nat) (s : Bytes), ceilDiv s.length C = k →
      (readChunks C k s).flatten = s ∧ (readChunks C k s).length = k := by
  intro k
  induction k with
  | zero =>
    intro s hs
    have h0 : s.length = 0 := by
      by_contra h
      have h1 : 1 ≤ s.length := by omega
      have := ceilDiv_pos h1 hC
      omega
    have hnil : s = [] := List.eq_nil_of_length_eq_zero h0
    subst hnil
    exact ⟨rfl, rfl⟩
  | succ k ih =>
    intro s hs
    have hlen : 1 ≤ s.length := by
      by_contra h
      have h0 : s.length = 0 := by omega
      rw [h0, ceilDiv_zero] at hs
      omega
    have hne : s ≠ [] := by
      intro h; subst h; simp at hlen
    have hstep : readChunks C (k + 1) s = s.take C :: readChunks C k (s.drop C) := by
      simp only [readChunks, take_isEmpty_false hC hne, Bool.false_eq_true,
        if_false]
    have hdrop : ceilDiv (s.drop C).length C = k := by
      rw [List.length_drop]
      have := ceilDiv_succ hlen hC
      omega
    obtain ⟨ihj, ihl⟩ := ih (s.drop C) hdrop
    constructor
    · rw [hstep, List.flatten_cons, ihj, List.take_append_drop]
    · rw [hstep, List.length_cons, ihl]

lemma telegramChunks_join {C : Nat} (hC : 1 ≤ C) (s : Bytes) :
    (telegramChunks C s).flatten = s :=
  (readChunks_spec hC (ceilDiv s.length C) s rfl).1

lemma telegramChunks_length {C : Nat} (hC : 1 ≤ C) (s : Bytes) :
    (telegramChunks C s).length = ceilDiv s.length C :=
  (readChunks_spec hC (ceilDiv s.length C) s rfl).2

lemma discordChunks_join {C : Nat} (hC : 1 ≤ C) (s : Bytes) :
    (discordChunks C s).flatten = s := by
  unfold discordChunks
  split
  · simp
  · exact (readChunks_spec hC (ceilDiv s.length C) s rfl).1

lemma discordChunks_length {C : Nat} (hC : 1 ≤ C) (s : Bytes) :
    (discordChunks C s).length = max 1 (ceilDiv s.length C) := by
  unfold discordChunks
  split
  · rename_i h
    rcases Nat.eq_zero_or_pos s.length with h0 | h0
    · rw [h0, ceilDiv_zero]
      simp only [List.length_singleton]
      omega
    · rw [ceilDiv_pos_eq h0 hC, Nat.div_eq_of_lt (by omega)]
      simp only [List.length_singleton]
      omega
  · rename_i h
    rw [(readChunks_spec hC (ceilDiv s.length C) s rfl).2]
    have h1 : 1 ≤ (s.length - 1) / C := by
      rw [Nat.one_le_div_iff (by omega)]
      omega
    rw [ceilDiv_pos_eq (by omega) hC]
    omega

/-! ### Association-list lemmas -/

lemma alookup_ainsert_self {α : Type} (d : AList α) (k : String) (v : α) :
    alookup (ainsert d k v) k = some v := by
  induction d with
  | nil => simp [ainsert, alookup]
  | cons p t ih =>
    obtain ⟨k2, w⟩ := p
    by_cases h : k2 = k
    · subst h; simp [ainsert, alookup]
    · simp [ainsert, alookup, h, ih]

lemma aerase_ainsert {α : Type} (d : AList α) (k : String) (v : α) :
    aerase (ainsert d k v) k = aerase d k := by
  induction d with
  | nil => simp [ainsert, aerase]
  | cons p t ih =>
    obtain ⟨k2, w⟩ := p
    by_cases h : k2 = k
    · subst h; simp [ainsert, aerase]
    · simp [ainsert, aerase, h, ih]

lemma alookup_eq_none {α : Type} (d : AList α) (k : String)
    (h : k ∉ d.map Prod.fst) : alookup d k = none := by
  induction d with
  | nil => rfl
  | cons p t ih =>
    obtain ⟨k2, w⟩ := p
    simp only [List.map_cons, List.mem_cons] at h
    push_neg at h
    have hne : ¬ (k2 = k) := fun hEq => h.1 hEq.symm
    simp only [alookup]
    rw [if_neg hne]
    exact ih h.2

lemma alookup_aerase {α : Type} (d : AList α) (k : String)
    (hnod : (d.map Prod.fst).Nodup) : alookup (aerase d k) k = none := by
  induction d with
  | nil => rfl
  | cons p t ih =>
    obtain ⟨k2, w⟩ := p
    simp only [List.map_cons, List.nodup_cons] at hnod
    by_cases h : k2 = k
    · subst h
      simp only [aerase, if_pos rfl]
      exact alookup_eq_none t k2 hnod.1
    · simp only [aerase, if_neg h, alookup, if_neg h]
      exact ih hnod.2

/-! ### Upload-loop lemmas -/

lemma uploadParts_ok (hashFn : Bytes → String) (store : Nat → Option Nat)
    (hstore : ∀ i, (store i).isSome) :
    ∀ (cs : List Bytes) (i : Nat),
      (uploadParts hashFn store i cs).failedAt = none ∧
      (uploadParts hashFn store i cs).stored.length = cs.length := by
  intro cs
  induction cs with
  | nil => intro i; exact ⟨rfl, rfl⟩
  | cons c cs ih =>
    intro i
    cases hs : store i with
    | none =>
      have h := hstore i
      rw [hs] at h
      simp at h
    | some hd =>
      obtain ⟨ih1, ih2⟩ := ih (i + 1)
      simp only [uploadParts, hs]
      exact ⟨ih1, by simp [ih2]⟩

lemma uploadParts_fail (hashFn : Bytes → String) (store : Nat → Option Nat) :
    ∀ (cs : List Bytes) (i k : Nat),
      (uploadParts hashFn store i cs).failedAt = some k →
      i ≤ k ∧ (uploadParts hashFn store i cs).stored.length = k - i := by
  intro cs
  induction cs with
  | nil =>
    intro i k h
    simp [uploadParts] at h
  | cons c cs ih =>
    intro i k h
    cases hs : store i with
    | some hd =>
      simp only [uploadParts, hs] at h ⊢
      obtain ⟨h1, h2⟩ := ih (i + 1) k h
      refine ⟨by omega, ?_⟩
      simp only [List.length_cons, h2]
      omega
    | none =>
      simp only [uploadParts, hs] at h ⊢
      obtain rfl : i = k := by simpa using h
      simp

lemma tUploadParts_ok (store : Nat → Option Nat)
    (hstore : ∀ i, (store i).isSome) :
    ∀ (cs : List Bytes) (i : Nat),
      (tUploadParts store i cs).failedAt = none ∧
      (tUploadParts store i cs).stored.length = cs.length := by
  intro cs
  induction cs with
  | nil => intro i; exact ⟨rfl, rfl⟩
  | cons c cs ih =>
    intro i
    cases hs : store i with
    | none =>
      have h := hstore i
      rw [hs] at h
      simp at h
    | some hd =>
      obtain ⟨ih1, ih2⟩ := ih (i + 1)
      simp only [tUploadParts, hs]
      exact ⟨ih1, by simp [ih2]⟩

lemma tUploadParts_fail (store : Nat → Option Nat) :
    ∀ (cs : List Bytes) (i k : Nat),
      (tUploadParts store i cs).failedAt = some k →
      i ≤ k ∧ (tUploadParts store i cs).stored.length = k - i := by
  intro cs
  induction cs with
  | nil =>
    intro i k h
    simp [tUploadParts] at h
  | cons c cs ih =>
    intro i k h
    cases hs : store i with
    | some hd =>
      simp only [tUploadParts, hs] at h ⊢
      obtain ⟨h1, h2⟩ := ih (i + 1) k h
      refine ⟨by omega, ?_⟩
      simp only [List.length_cons, h2]
      omega
    | none =>
      simp only [tUploadParts, hs] at h ⊢
      obtain rfl : i = k := by simpa using h
      simp

/-! ### Fetch-loop lemmas -/

lemma fetchParts_ok (fetch : Nat → Option Bytes) :
    ∀ (ms : List Nat) (i : Nat), (∀ m ∈ ms, (fetch m).isSome) →
      (fetchParts fetch i ms).calls = ms ∧
      (fetchParts fetch i ms).failedAt = none := by
  intro ms
  induction ms with
  | nil => intro i _; exact ⟨rfl, rfl⟩
  | cons m ms ih =>
    intro i hall
    cases hs : fetch m with
    | none =>
      have h := hall m (by simp)
      rw [hs] at h
      simp at h
    | some bs =>
      obtain ⟨ih1, ih2⟩ := ih (i + 1) (fun x hx => hall x (by simp [hx]))
      simp only [fetchParts, hs]
      exact ⟨by simp [ih1], ih2⟩

lemma fetchParts_fail (fetch : Nat → Option Bytes) {m : Nat}
    (hm : fetch m = none) :
    ∀ (pre : List Nat) (i : Nat) (post : List Nat),
      (∀ x ∈ pre, (fetch x).isSome) →
      (fetchParts fetch i (pre ++ m :: post)).calls = pre ++ [m] ∧
      (fetchParts fetch i (pre ++ m :: post)).failedAt = some (i + pre.length) := by
  intro pre
  induction pre with
  | nil =>
    intro i post _
    simp [fetchParts, hm]
  | cons x pre ih =>
    intro i post hall
    cases hs : fetch x with
    | none =>
      have h := hall x (by simp)
      rw [hs] at h
      simp at h
    | some bs =>
      obtain ⟨ih1, ih2⟩ := ih (i + 1) post (fun y hy => hall y (by simp [hy]))
      refine ⟨?_, ?_⟩
      · simp only [List.cons_append, fetchParts, hs, List.append_eq]
        simp [ih1]
      · simp only [List.cons_append, fetchParts, hs, List.append_eq]
        simp only [ih2, List.length_cons]
        congr 1
        omega

/-! ### Remove-loop lemmas -/

lemma deleteParts_tolerated (del : Nat → DelResult) (f : String) :
    ∀ (ms : List Nat), (∀ m ∈ ms, del m = .ok ∨ del m = .notFound) →
      deleteParts del f ms = (ms.map (REvent.delCall f), true) := by
  intro ms
  induction ms with
  | nil => intro _; rfl
  | cons m ms ih =>
    intro hall
    have hrest := ih (fun x hx => hall x (by simp [hx]))
    rcases hall m (by simp) with h | h <;>
      simp [deleteParts, h, hrest]

lemma deleteParts_aborts (del : Nat → DelResult) (f : String) {m : Nat}
    (hm : del m = .forbidden ∨ del m = .err) :
    ∀ (pre : List Nat), (∀ x ∈ pre, del x = .ok ∨ del x = .notFound) →
    ∀ (post : List Nat),
      deleteParts del f (pre ++ m :: post) =
        (pre.map (REvent.delCall f) ++ [.delCall f m], false) := by
  intro pre
  induction pre with
  | nil =>
    intro _ post
    rcases hm with h | h <;> simp [deleteParts, h]
  | cons x pre ih =>
    intro hall post
    have hrest := ih (fun y hy => hall y (by simp [hy])) post
    rcases hall x (by simp) with h | h <;>
      simp [deleteParts, h, hrest]

lemma isEmpty_false_of_ne_nil {α : Type} {l : List α} (h : l ≠ []) :
    l.isEmpty = false := by
  cases hE : l.isEmpty
  · rfl
  · exact absurd (List.isEmpty_iff.mp hE) h

lemma removeFiles_tolerated (del : Nat → DelResult) (owner : String) :
    ∀ (ufs : AList Manifest) (drive : DriveMap),
      alookup drive owner = some ufs →
      (∀ p ∈ ufs, ∀ e ∈ p.2, del e.2 = DelResult.ok ∨ del e.2 = DelResult.notFound) →
      removeFiles del owner (ufs.map Prod.fst) drive =
        ((ufs.map fun p => (p.2.map fun e => REvent.delCall p.1 e.2) ++
            [REvent.manifestRemove p.1]).flatten,
         if ufs.isEmpty then drive else aerase drive owner) := by
  intro ufs
  induction ufs with
  | nil =>
    intro drive _ _
    rfl
  | cons p rest ih =>
    obtain ⟨f, man⟩ := p
    intro drive hlk htol
    have hdel : deleteParts del f (man.map Prod.snd) =
        (man.map (fun e => REvent.delCall f e.2), true) := by
      have h := deleteParts_tolerated del f (man.map Prod.snd)
        (fun m hm => by
          obtain ⟨e, he, rfl⟩ := List.mem_map.mp hm
          exact htol (f, man) (by simp) e he)
      rw [h]
      simp [List.map_map, Function.comp]
    have hlkf : alookup ((f, man) :: rest) f = some man := by simp [alookup]
    have haer : aerase ((f, man) :: rest) f = rest := by simp [aerase]
    have hre : removeEntry drive owner f =
        if rest.isEmpty then aerase drive owner else ainsert drive owner rest := by
      unfold removeEntry
      rw [hlk]
      simp only [hlkf, Option.isSome_some, if_true, haer]
    have hunf : removeFiles del owner (f :: rest.map Prod.fst) drive =
        ((man.map fun e => REvent.delCall f e.2) ++ [REvent.manifestRemove f] ++
            (removeFiles del owner (rest.map Prod.fst) (removeEntry drive owner f)).1,
          (removeFiles del owner (rest.map Prod.fst) (removeEntry drive owner f)).2) := by
      simp only [removeFiles, hlk, Option.getD_some, hlkf, hdel, if_true]
    by_cases hrest : rest = []
    · subst hrest
      rw [List.map_cons, hunf, hre]
      simp [removeFiles]
    · have hiE : rest.isEmpty = false := isEmpty_false_of_ne_nil hrest
      rw [hiE] at hre
      simp only [Bool.false_eq_true, if_false] at hre
      have hih := ih (ainsert drive owner rest)
        (alookup_ainsert_self drive owner rest)
        (fun q hq e he => htol q (by simp [hq]) e he)
      rw [List.map_cons, hunf, hre, hih]
      simp only [hiE, Bool.false_eq_true, if_false, aerase_ainsert,
        List.map_cons, List.flatten_cons, List.isEmpty_cons]

/-! ### Concrete multi-chunk files

A file of `2 * C + 1` identical bytes splits into exactly three chunks
(`C`, `C`, `1` bytes), which lets concrete multi-part uploads be evaluated
without materialising ten-megabyte lists. -/

lemma readChunks_succ {C : Nat} (k : Nat) {s : Bytes}
    (h : (s.take C).isEmpty = false) :
    readChunks C (k + 1) s = s.take C :: readChunks C k (s.drop C) := by
  simp only [readChunks, h, Bool.false_eq_true, if_false]

lemma replicate_isEmpty_false {C : Nat} (hC : 1 ≤ C) (a : Nat) :
    (List.replicate C a).isEmpty = false := by
  apply isEmpty_false_of_ne_nil
  intro h
  have := congrArg List.length h
  simp at this
  omega

lemma ceilDiv_two_blocks {C : Nat} (hC : 1 ≤ C) : ceilDiv (2 * C + 1) C = 3 := by
  unfold ceilDiv
  have h : 2 * C + 1 + C - 1 = 3 * C := by omega
  rw [h]
  exact Nat.mul_div_cancel 3 hC

lemma readChunks_replicate3 {C : Nat} (hC : 1 ≤ C) (a : Nat) :
    readChunks C 3 (List.replicate (2 * C + 1) a) =
      [List.replicate C a, List.replicate C a, [a]] := by
  have h1 : (List.replicate (2 * C + 1) a).take C = List.replicate C a := by
    rw [List.take_replicate]
    congr 1
    omega
  have h2 : (List.replicate (2 * C + 1) a).drop C = List.replicate (C + 1) a := by
    rw [List.drop_replicate]
    congr 1
    omega
  have h3 : (List.replicate (C + 1) a).take C = List.replicate C a := by
    rw [List.take_replicate]
    congr 1
    omega
  have h4 : (List.replicate (C + 1) a).drop C = List.replicate 1 a := by
    rw [List.drop_replicate]
    congr 1
    omega
  have h5 : (List.replicate 1 a).take C = [a] := by
    rw [List.take_replicate]
    have hmin : min C 1 = 1 := by omega
    rw [hmin]
    rfl
  have hA : ((List.replicate (2 * C + 1) a).take C).isEmpty = false := by
    rw [h1]; exact replicate_isEmpty_false hC a
  have hB : ((List.replicate (C + 1) a).take C).isEmpty = false := by
    rw [h3]; exact replicate_isEmpty_false hC a
  have hD : ((List.replicate 1 a).take C).isEmpty = false := by
    rw [h5]; rfl
  have e3 : readChunks C 3 (List.replicate (2 * C + 1) a) =
      (List.replicate (2 * C + 1) a).take C ::
        readChunks C 2 ((List.replicate (2 * C + 1) a).drop C) :=
    readChunks_succ 2 hA
  have e2 : readChunks C 2 (List.replicate (C + 1) a) =
      (List.replicate (C + 1) a).take C ::
        readChunks C 1 ((List.replicate (C + 1) a).drop C) :=
    readChunks_succ 1 hB
  have e1 : readChunks C 1 (List.replicate 1 a) =
      (List.replicate 1 a).take C ::
        readChunks C 0 ((List.replicate 1 a).drop C) :=
    readChunks_succ 0 hD
  rw [e3, h1, h2, e2, h3, h4, e1, h5]
  rfl

lemma discordChunks_replicate3 {C : Nat} (hC : 1 ≤ C) (a : Nat) :
    discordChunks C (List.replicate (2 * C + 1) a) =
      [List.replicate C a, List.replicate C a, [a]] := by
  unfold discordChunks
  rw [List.length_replicate, if_neg (by omega), ceilDiv_two_blocks hC]
  exact readChunks_replicate3 hC a

lemma telegramChunks_replicate3 {C : Nat} (hC : 1 ≤ C) (a : Nat) :
    telegramChunks C (List.replicate (2 * C + 1) a) =
      [List.replicate C a, List.replicate C a, [a]] := by
  unfold telegramChunks
  rw [List.length_replicate, ceilDiv_two_blocks hC]
  exact readChunks_replicate3 hC a

/-! ### Upload unfolding lemmas

Stated projection-by-projection: comparing whole-outcome structure literals
makes the elaborator reduce the upload trace applied to a symbolic file,
which diverges on the open `ceilDiv` term, so each field is exposed as its
own equation instead. -/

lemma discordUpload_dup (hashFn : Bytes → String) (store : Nat → Option Nat)
    (saveOk : Bool) (drive : DriveMap) (owner filename : String) (file : Bytes)
    (hdup : (alookup ((alookup drive owner).getD []) filename).isSome) :
    (discordUpload hashFn store saveOk drive owner filename file).result
        = UploadResult.alreadyExists ∧
    (discordUpload hashFn store saveOk drive owner filename file).drive = drive ∧
    (discordUpload hashFn store saveOk drive owner filename file).calls = [] ∧
    (discordUpload hashFn store saveOk drive owner filename file).deleteCalls = [] := by
  refine ⟨?_, ?_, ?_, ?_⟩ <;>
    simp only [discordUpload, hdup, if_true]

lemma discordUpload_fail (hashFn : Bytes → String) (store : Nat → Option Nat)
    (saveOk : Bool) (drive : DriveMap) (owner filename : String) (file : Bytes)
    (k : Nat)
    (hdup : alookup ((alookup drive owner).getD []) filename = none)
    (hfail : (uploadParts hashFn store 1 (discordChunks MAX_PART_SIZE file)).failedAt
        = some k) :
    (discordUpload hashFn store saveOk drive owner filename file).result
        = UploadResult.chunkFailed k ∧
    (discordUpload hashFn store saveOk drive owner filename file).drive = drive ∧
    (discordUpload hashFn store saveOk drive owner filename file).calls
        = (uploadParts hashFn store 1 (discordChunks MAX_PART_SIZE file)).calls ∧
    (discordUpload hashFn store saveOk drive owner filename file).stored
        = (uploadParts hashFn store 1 (discordChunks MAX_PART_SIZE file)).stored.map
            Prod.snd ∧
    (discordUpload hashFn store saveOk drive owner filename file).deleteCalls = [] := by
  rcases htr : uploadParts hashFn store 1 (discordChunks MAX_PART_SIZE file)
    with ⟨st, ca, fa⟩
  rw [htr] at hfail
  simp only at hfail
  subst hfail
  refine ⟨?_, ?_, ?_, ?_, ?_⟩ <;>
    simp only [discordUpload, hdup, Option.isSome_none, Bool.false_eq_true,
      if_false, htr]

lemma discordUpload_ok (hashFn : Bytes → String) (store : Nat → Option Nat)
    (saveOk : Bool) (drive : DriveMap) (owner filename : String) (file : Bytes)
    (hdup : alookup ((alookup drive owner).getD []) filename = none)
    (hok : (uploadParts hashFn store 1 (discordChunks MAX_PART_SIZE file)).failedAt
        = none) :
    (discordUpload hashFn store saveOk drive owner filename file).result
        = UploadResult.ok
            (uploadParts hashFn store 1 (discordChunks MAX_PART_SIZE file)).stored.length ∧
    (discordUpload hashFn store saveOk drive owner filename file).drive
        = (if saveOk then
            ainsert drive owner (ainsert ((alookup drive owner).getD []) filename
              (uploadParts hashFn store 1 (discordChunks MAX_PART_SIZE file)).stored)
          else drive) ∧
    (discordUpload hashFn store saveOk drive owner filename file).calls
        = (uploadParts hashFn store 1 (discordChunks MAX_PART_SIZE file)).calls ∧
    (discordUpload hashFn store saveOk drive owner filename file).stored
        = (uploadParts hashFn store 1 (discordChunks MAX_PART_SIZE file)).stored.map
            Prod.snd ∧
    (discordUpload hashFn store saveOk drive owner filename file).deleteCalls = [] := by
  rcases htr : uploadParts hashFn store 1 (discordChunks MAX_PART_SIZE file)
    with ⟨st, ca, fa⟩
  rw [htr] at hok
  simp only at hok
  subst hok
  refine ⟨?_, ?_, ?_, ?_, ?_⟩ <;>
    simp only [discordUpload, hdup, Option.isSome_none, Bool.false_eq_true,
      if_false, htr]

lemma telegramUpload_fail (store : Nat → Option Nat) (db : TDb)
    (filename : String) (file : Bytes) (k : Nat)
    (hdup : tIsDuplicate db filename = false)
    (hfail : (tUploadParts store 1 (telegramChunks MAX_PART_SIZE file)).failedAt
        = some k) :
    (telegramUpload store db filename file).result = UploadResult.chunkFailed k ∧
    (telegramUpload store db filename file).db = db ∧
    (telegramUpload store db filename file).calls
        = (tUploadParts store 1 (telegramChunks MAX_PART_SIZE file)).calls ∧
    (telegramUpload store db filename file).stored
        = (tUploadParts store 1 (telegramChunks MAX_PART_SIZE file)).stored ∧
    (telegramUpload store db filename file).deleteCalls
        = (tUploadParts store 1 (telegramChunks MAX_PART_SIZE file)).stored := by
  rcases htr : tUploadParts store 1 (telegramChunks MAX_PART_SIZE file)
    with ⟨st, ca, fa⟩
  rw [htr] at hfail
  simp only at hfail
  subst hfail
  refine ⟨?_, ?_, ?_, ?_, ?_⟩ <;>
    simp only [telegramUpload, hdup, Bool.false_eq_true, if_false, htr]

lemma telegramUpload_ok (store : Nat → Option Nat) (db : TDb)
    (filename : String) (file : Bytes)
    (hdup : tIsDuplicate db filename = false)
    (hok : (tUploadParts store 1 (telegramChunks MAX_PART_SIZE file)).failedAt
        = none) :
    (telegramUpload store db filename file).result
        = UploadResult.ok
            (tUploadParts store 1 (telegramChunks MAX_PART_SIZE file)).stored.length ∧
    (telegramUpload store db filename file).db
        = db ++ [(filename, (tUploadParts store 1 (telegramChunks MAX_PART_SIZE file)).stored)] ∧
    (telegramUpload store db filename file).calls
        = (tUploadParts store 1 (telegramChunks MAX_PART_SIZE file)).calls ∧
    (telegramUpload store db filename file).stored
        = (tUploadParts store 1 (telegramChunks MAX_PART_SIZE file)).stored ∧
    (telegramUpload store db filename file).deleteCalls = [] := by
  rcases htr : tUploadParts store 1 (telegramChunks MAX_PART_SIZE file)
    with ⟨st, ca, fa⟩
  rw [htr] at hok
  simp only at hok
  subst hok
  refine ⟨?_, ?_, ?_, ?_, ?_⟩ <;>
    simp only [telegramUpload, hdup, Bool.false_eq_true, if_false, htr]

lemma telegramUpload_dup (store : Nat → Option Nat) (db : TDb)
    (filename : String) (file : Bytes)
    (hdup : tIsDuplicate db filename = true) :
    (telegramUpload store db filename file).result = UploadResult.alreadyExists ∧
    (telegramUpload store db filename file).db = db ∧
    (telegramUpload store db filename file).calls = [] ∧
    (telegramUpload store db filename file).deleteCalls = [] := by
  refine ⟨?_, ?_, ?_, ?_⟩ <;>
    simp only [telegramUpload, hdup, if_true]

/-! ### Download unfolding lemmas -/

lemma discordDownload_found_ok (fetch : Nat → Option Bytes) (drive : DriveMap)
    (owner filename : String) (manifest : Manifest)
    (hm : alookup ((alookup drive owner).getD []) filename = some manifest)
    (hok : (fetchParts fetch 1 (manifest.map Prod.snd)).failedAt = none) :
    (discordDownload fetch drive owner filename).result = DownloadResult.ok ∧
    (discordDownload fetch drive owner filename).calls
        = (fetchParts fetch 1 (manifest.map Prod.snd)).calls ∧
    (discordDownload fetch drive owner filename).output
        = some (fetchParts fetch 1 (manifest.map Prod.snd)).written := by
  rcases htr : fetchParts fetch 1 (manifest.map Prod.snd) with ⟨ca, w, fa⟩
  rw [htr] at hok
  simp only at hok
  subst hok
  refine ⟨?_, ?_, ?_⟩ <;> simp only [discordDownload, hm, htr]

lemma discordDownload_found_fail (fetch : Nat → Option Bytes) (drive : DriveMap)
    (owner filename : String) (manifest : Manifest) (k : Nat)
    (hm : alookup ((alookup drive owner).getD []) filename = some manifest)
    (hf : (fetchParts fetch 1 (manifest.map Prod.snd)).failedAt = some k) :
    (discordDownload fetch drive owner filename).result = DownloadResult.failedAt k ∧
    (discordDownload fetch drive owner filename).calls
        = (fetchParts fetch 1 (manifest.map Prod.snd)).calls ∧
    (discordDownload fetch drive owner filename).output = none := by
  rcases htr : fetchParts fetch 1 (manifest.map Prod.snd) with ⟨ca, w, fa⟩
  rw [htr] at hf
  simp only at hf
  subst hf
  refine ⟨?_, ?_, ?_⟩ <;> simp only [discordDownload, hm, htr]

lemma tDownload_found_ok (fetch : Nat → Option Bytes) (db : TDb)
    (filename : String) (l : Nat) (ls : List Nat)
    (hdb : alookup db filename = some (l :: ls))
    (hok : (fetchParts fetch 1 (l :: ls)).failedAt = none) :
    (tDownload fetch db filename).result = DownloadResult.ok ∧
    (tDownload fetch db filename).calls = (fetchParts fetch 1 (l :: ls)).calls ∧
    (tDownload fetch db filename).output
        = some (fetchParts fetch 1 (l :: ls)).written := by
  rcases htr : fetchParts fetch 1 (l :: ls) with ⟨ca, w, fa⟩
  rw [htr] at hok
  simp only at hok
  subst hok
  refine ⟨?_, ?_, ?_⟩ <;> simp only [tDownload, hdb, Option.getD_some, htr]

lemma tDownload_found_fail (fetch : Nat → Option Bytes) (db : TDb)
    (filename : String) (l : Nat) (ls : List Nat) (k : Nat)
    (hdb : alookup db filename = some (l :: ls))
    (hf : (fetchParts fetch 1 (l :: ls)).failedAt = some k) :
    (tDownload fetch db filename).result = DownloadResult.failedAt k ∧
    (tDownload fetch db filename).calls = (fetchParts fetch 1 (l :: ls)).calls ∧
    (tDownload fetch db filename).output = none := by
  rcases htr : fetchParts fetch 1 (l :: ls) with ⟨ca, w, fa⟩
  rw [htr] at hf
  simp only at hf
  subst hf
  refine ⟨?_, ?_, ?_⟩ <;> simp only [tDownload, hdb, Option.getD_some, htr]

/-! ### Concrete fixtures used by counterexamples and witnesses -/

/-- A transport store oracle that always succeeds, part `i` getting handle
`100 + i`. -/
def okStore : Nat → Option Nat := fun i => some (100 + i)

/-- A transport store oracle that raises on the call for part 2 and succeeds
on every other part. -/
def failAt2Store : Nat → Option Nat := fun i => if i = 2 then none else some (100 + i)

/-- A fixed fingerprint function for concrete runs (the claims never depend
on digest values). -/
def hashFn0 : Bytes → String := fun _ => "h"

/-- A concrete file of `2 * MAX_PART_SIZE + 1` bytes: it splits into three
chunks, so a failure at part 2 happens with one chunk already stored and one
never attempted. -/
def bigFile : Bytes := List.replicate (2 * MAX_PART_SIZE + 1) 7

/-! ## Claim theorems -/

/-- C4: for every byte sequence and every chunk size `C ≥ 1`, splitting into
successive chunks of at most `C` bytes (as both upload variants do) and
concatenating the chunks in manifest order (as both download variants do)
reconstructs the original byte sequence byte-for-byte. -/
theorem split_join_roundtrip (s : Bytes) (C : Nat) (hC : 1 ≤ C) :
    (discordChunks C s).flatten = s ∧ (telegramChunks C s).flatten = s :=
  ⟨discordChunks_join hC s, telegramChunks_join hC s⟩

/-- Witness for C4 at the spec scenario: 25 bytes with chunk size 10. -/
theorem split_join_roundtrip_witness :
    1 ≤ 10 ∧
    ((discordChunks 10 (List.replicate 25 65)).flatten = List.replicate 25 65 ∧
      (telegramChunks 10 (List.replicate 25 65)).flatten = List.replicate 25 65) :=
  ⟨by decide, split_join_roundtrip (List.replicate 25 65) 10 (by decide)⟩

/-- C3 counterexample: the Telegram `upload` of a zero-byte file succeeds
with zero chunks stored and commits an empty manifest row, while the claim
requires `max 1 (ceil (0 / C)) = 1` chunk. -/
theorem chunk_count_telegram_empty_cex :
    (telegramUpload okStore [] "empty.bin" []).result = UploadResult.ok 0 ∧
    (telegramUpload okStore [] "empty.bin" []).db = [("empty.bin", [])] ∧
    (telegramUpload okStore [] "empty.bin" []).stored.length = 0 ∧
    max 1 (ceilDiv 0 MAX_PART_SIZE) = 1 := by
  refine ⟨?_, ?_, ?_, ?_⟩ <;> rfl

/-- C3 amended: with an all-successful transport and a fresh filename, the
Discord `upload` stores and commits exactly `max 1 (ceil (s / C))` chunks
(zero-byte file → one empty chunk), while the Telegram `upload` stores and
commits exactly `ceil (s / C)` chunks (zero-byte file → zero chunks). -/
theorem chunk_count_amended (hashFn : Bytes → String) (store : Nat → Option Nat)
    (saveOk : Bool) (drive : DriveMap) (owner filename : String) (file : Bytes)
    (db : TDb)
    (hdup : alookup ((alookup drive owner).getD []) filename = none)
    (htdup : tIsDuplicate db filename = false)
    (hstore : ∀ i, (store i).isSome) :
    (discordUpload hashFn store saveOk drive owner filename file).stored.length
        = max 1 (ceilDiv file.length MAX_PART_SIZE) ∧
    (discordUpload hashFn store saveOk drive owner filename file).result
        = UploadResult.ok (max 1 (ceilDiv file.length MAX_PART_SIZE)) ∧
    (telegramUpload store db filename file).stored.length
        = ceilDiv file.length MAX_PART_SIZE ∧
    (telegramUpload store db filename file).result
        = UploadResult.ok (ceilDiv file.length MAX_PART_SIZE) := by
  have hC : 1 ≤ MAX_PART_SIZE := by decide
  obtain ⟨hdf, hdl⟩ := uploadParts_ok hashFn store hstore (discordChunks MAX_PART_SIZE file) 1
  obtain ⟨htf, htl⟩ := tUploadParts_ok store hstore (telegramChunks MAX_PART_SIZE file) 1
  have hdlen : (uploadParts hashFn store 1 (discordChunks MAX_PART_SIZE file)).stored.length
      = max 1 (ceilDiv file.length MAX_PART_SIZE) := by
    rw [hdl, discordChunks_length hC]
  have htlen : (tUploadParts store 1 (telegramChunks MAX_PART_SIZE file)).stored.length
      = ceilDiv file.length MAX_PART_SIZE := by
    rw [htl, telegramChunks_length hC]
  obtain ⟨hdres, _hddrive, _hdcalls, hdstored, _hddel⟩ :=
    discordUpload_ok hashFn store saveOk drive owner filename file hdup hdf
  obtain ⟨htres, _htdb, _htcalls, htstored, _htdel⟩ :=
    telegramUpload_ok store db filename file htdup htf
  refine ⟨?_, ?_, ?_, ?_⟩
  · rw [hdstored, List.length_map, hdlen]
  · rw [hdres, hdlen]
  · rw [htstored, htlen]
  · rw [htres, htlen]

/-- Witness for C3 amended: a one-byte file, empty drive and database,
all-successful transport. -/
theorem chunk_count_amended_witness :
    alookup ((alookup ([] : DriveMap) "alice").getD []) "a.txt" = none ∧
    tIsDuplicate [] "a.txt" = false ∧
    ((discordUpload hashFn0 okStore true [] "alice" "a.txt" [65]).stored.length
        = max 1 (ceilDiv ([65] : Bytes).length MAX_PART_SIZE) ∧
      (discordUpload hashFn0 okStore true [] "alice" "a.txt" [65]).result
        = UploadResult.ok (max 1 (ceilDiv ([65] : Bytes).length MAX_PART_SIZE)) ∧
      (telegramUpload okStore [] "a.txt" [65]).stored.length
        = ceilDiv ([65] : Bytes).length MAX_PART_SIZE ∧
      (telegramUpload okStore [] "a.txt" [65]).result
        = UploadResult.ok (ceilDiv ([65] : Bytes).length MAX_PART_SIZE)) :=
  ⟨rfl, rfl,
    chunk_count_amended hashFn0 okStore true [] "alice" "a.txt" [65] [] rfl rfl
      (fun _ => rfl)⟩

/-- C8: evaluation at the failing input.  All chunk stores succeed, the
manifest JSON write raises, yet the Discord `upload` reports success
(`save_json` swallows the exception and `upload` appends the file to
`successful_uploads`), and the persisted drive does not contain the
manifest.  The claim (and `save_json`'s own docstring, which says the caller
should manage write errors) requires a distinct failure report instead. -/
theorem upload_manifest_write_failure_reports_success :
    (discordUpload hashFn0 okStore false [] "alice" "f.txt" [65]).result
        = UploadResult.ok 1 ∧
    (discordUpload hashFn0 okStore false [] "alice" "f.txt" [65]).drive = [] := by
  exact ⟨rfl, rfl⟩

/-- C9: neither download variant ever modifies the drive metadata: whatever
the transport does, the owner-to-filename-to-manifest mapping after the
operation is the one loaded before it (the code never writes it back). -/
theorem download_preserves_drive (fetch : Nat → Option Bytes) (drive : DriveMap)
    (owner filename : String) (tfetch : Nat → Option Bytes) (db : TDb)
    (fname2 : String) :
    (discordDownload fetch drive owner filename).drive = drive ∧
    (tDownload tfetch db fname2).db = db := by
  constructor
  · simp only [discordDownload]
    split
    · rfl
    · split <;> rfl
  · simp only [tDownload]
    split
    · rfl
    · split <;> rfl

/-- C10: a missing drive file (`none`) or an unparseable one (`some none`)
loads as the empty mapping, and a download of any filename against that
state fails with not-found (never a corrupt-manifest style error). -/
theorem load_json_failure_empty_drive (fetch : Nat → Option Bytes)
    (owner filename : String) :
    loadJson none = [] ∧ loadJson (some none) = [] ∧
    (discordDownload fetch (loadJson none) owner filename).result
        = DownloadResult.notFound ∧
    (discordDownload fetch (loadJson (some none)) owner filename).result
        = DownloadResult.notFound :=
  ⟨rfl, rfl, rfl, rfl⟩

/-- C2 counterexample: in the Telegram variant a filename that already
exists in the owner's drive with an empty manifest (the stored form of a
zero-byte file) is not rejected: the duplicate check tests Python truthiness
of the link list, so the upload issues a store call and inserts a second row
for the same name, modifying both transport and manifest state. -/
theorem upload_duplicate_telegram_cex :
    (alookup ([("f.txt", ([] : List Nat))] : TDb) "f.txt").isSome = true ∧
    (telegramUpload okStore [("f.txt", [])] "f.txt" [7]).result = UploadResult.ok 1 ∧
    (telegramUpload okStore [("f.txt", [])] "f.txt" [7]).calls = [1] ∧
    (telegramUpload okStore [("f.txt", [])] "f.txt" [7]).db
        = [("f.txt", []), ("f.txt", [101])] := by
  refine ⟨?_, ?_, ?_, ?_⟩ <;> rfl

/-- C2 amended: a duplicate upload is rejected with a failure, no store
calls and unchanged state — in the Discord variant for every existing
manifest, and in the Telegram variant provided the existing manifest is
non-empty (an existing empty manifest is treated as absent there and the
upload proceeds). -/
theorem upload_duplicate_rejected_amended (hashFn : Bytes → String)
    (store : Nat → Option Nat) (saveOk : Bool) (drive : DriveMap)
    (owner filename : String) (file : Bytes) (db : TDb) (manifest : Manifest)
    (links : List Nat)
    (hd : alookup ((alookup drive owner).getD []) filename = some manifest)
    (ht : alookup db filename = some links) (hne : links ≠ []) :
    (discordUpload hashFn store saveOk drive owner filename file).result
        = UploadResult.alreadyExists ∧
    (discordUpload hashFn store saveOk drive owner filename file).drive = drive ∧
    (discordUpload hashFn store saveOk drive owner filename file).calls = [] ∧
    (telegramUpload store db filename file).result = UploadResult.alreadyExists ∧
    (telegramUpload store db filename file).db = db ∧
    (telegramUpload store db filename file).calls = [] := by
  have hdup : (alookup ((alookup drive owner).getD []) filename).isSome := by
    rw [hd]; rfl
  have htdup : tIsDuplicate db filename = true := by
    unfold tIsDuplicate
    rw [ht]
    simp only [Option.getD_some, Bool.not_eq_true']
    exact isEmpty_false_of_ne_nil hne
  obtain ⟨hdres, hddrive, hdcalls, _⟩ :=
    discordUpload_dup hashFn store saveOk drive owner filename file hdup
  obtain ⟨htres, htdb, htcalls, _⟩ := telegramUpload_dup store db filename file htdup
  exact ⟨hdres, hddrive, hdcalls, htres, htdb, htcalls⟩

/-- Witness for C2 amended: a drive and a database that both already hold
the filename with a one-entry manifest. -/
theorem upload_duplicate_rejected_amended_witness :
    alookup ((alookup ([("alice", [("f.txt", [("h", 5)])])] : DriveMap) "alice").getD [])
        "f.txt" = some [("h", 5)] ∧
    alookup ([("f.txt", [5])] : TDb) "f.txt" = some [5] ∧
    ([5] : List Nat) ≠ [] ∧
    ((discordUpload hashFn0 okStore true [("alice", [("f.txt", [("h", 5)])])]
        "alice" "f.txt" [7]).result = UploadResult.alreadyExists ∧
      (discordUpload hashFn0 okStore true [("alice", [("f.txt", [("h", 5)])])]
        "alice" "f.txt" [7]).drive = [("alice", [("f.txt", [("h", 5)])])] ∧
      (discordUpload hashFn0 okStore true [("alice", [("f.txt", [("h", 5)])])]
        "alice" "f.txt" [7]).calls = [] ∧
      (telegramUpload okStore [("f.txt", [5])] "f.txt" [7]).result
        = UploadResult.alreadyExists ∧
      (telegramUpload okStore [("f.txt", [5])] "f.txt" [7]).db = [("f.txt", [5])] ∧
      (telegramUpload okStore [("f.txt", [5])] "f.txt" [7]).calls = []) :=
  ⟨rfl, rfl, by decide,
    upload_duplicate_rejected_amended hashFn0 okStore true
      [("alice", [("f.txt", [("h", 5)])])] "alice" "f.txt" [7] [("f.txt", [5])]
      [("h", 5)] [5] rfl rfl (by decide)⟩

/-- C1 counterexample: a three-chunk Discord upload whose store call for
part 2 raises.  One handle was stored during the attempt, yet no transport
delete call is issued for it (the Discord `upload` has no rollback code);
the claim requires a best-effort delete call for every stored handle.  The
manifest is indeed never written. -/
theorem upload_discord_no_rollback_cex :
    (discordUpload hashFn0 failAt2Store true [] "alice" "big.bin" bigFile).result
        = UploadResult.chunkFailed 2 ∧
    (discordUpload hashFn0 failAt2Store true [] "alice" "big.bin" bigFile).stored
        = [101] ∧
    (discordUpload hashFn0 failAt2Store true [] "alice" "big.bin" bigFile).deleteCalls
        = [] ∧
    (discordUpload hashFn0 failAt2Store true [] "alice" "big.bin" bigFile).drive
        = [] := by
  have hC : 1 ≤ MAX_PART_SIZE := by decide
  have htr : uploadParts hashFn0 failAt2Store 1 (discordChunks MAX_PART_SIZE bigFile)
      = ⟨[("h", 101)], [1, 2], some 2⟩ := by
    rw [show bigFile = List.replicate (2 * MAX_PART_SIZE + 1) 7 from rfl,
      discordChunks_replicate3 hC 7]
    simp [uploadParts, failAt2Store, hashFn0]
  have hfail : (uploadParts hashFn0 failAt2Store 1
      (discordChunks MAX_PART_SIZE bigFile)).failedAt = some 2 := by
    rw [htr]
  obtain ⟨hres, hdrive, _hcalls, hstored, hdel⟩ :=
    discordUpload_fail hashFn0 failAt2Store true [] "alice" "big.bin" bigFile 2
      rfl hfail
  refine ⟨hres, ?_, hdel, hdrive⟩
  rw [hstored, htr]
  rfl

/-- C1 amended: on a transport store failure at chunk `k`, neither variant
ever writes a manifest entry and both abort with a chunk failure; the
Telegram variant issues a best-effort delete call for each of the `k - 1`
handles already stored, while the Discord variant issues no delete calls at
all (the stored handles are orphaned). -/
theorem upload_failure_rollback_amended (hashFn : Bytes → String)
    (store : Nat → Option Nat) (saveOk : Bool) (drive : DriveMap)
    (owner filename : String) (file : Bytes) (db : TDb) (k : Nat)
    (hdup : alookup ((alookup drive owner).getD []) filename = none)
    (htdup : tIsDuplicate db filename = false)
    (hdfail : (uploadParts hashFn store 1 (discordChunks MAX_PART_SIZE file)).failedAt
        = some k)
    (htfail : (tUploadParts store 1 (telegramChunks MAX_PART_SIZE file)).failedAt
        = some k) :
    (discordUpload hashFn store saveOk drive owner filename file).result
        = UploadResult.chunkFailed k ∧
    (discordUpload hashFn store saveOk drive owner filename file).drive = drive ∧
    (discordUpload hashFn store saveOk drive owner filename file).deleteCalls = [] ∧
    (telegramUpload store db filename file).result = UploadResult.chunkFailed k ∧
    (telegramUpload store db filename file).db = db ∧
    (telegramUpload store db filename file).deleteCalls
        = (telegramUpload store db filename file).stored ∧
    (telegramUpload store db filename file).stored.length = k - 1 := by
  obtain ⟨hk1, hlen⟩ :=
    tUploadParts_fail store (telegramChunks MAX_PART_SIZE file) 1 k htfail
  obtain ⟨hdres, hddrive, _hdcalls, _hdstored, hddel⟩ :=
    discordUpload_fail hashFn store saveOk drive owner filename file k hdup hdfail
  obtain ⟨htres, htdb, _htcalls, htstored, htdel⟩ :=
    telegramUpload_fail store db filename file k htdup htfail
  refine ⟨hdres, hddrive, hddel, htres, htdb, ?_, ?_⟩
  · rw [htdel, htstored]
  · rw [htstored]
    exact hlen

/-- Witness for C1 amended: the three-chunk file with the store failing at
part 2, on an empty drive and database, in both variants. -/
theorem upload_failure_rollback_amended_witness :
    alookup ((alookup ([] : DriveMap) "alice").getD []) "big.bin" = none ∧
    tIsDuplicate [] "big.bin" = false ∧
    (uploadParts hashFn0 failAt2Store 1 (discordChunks MAX_PART_SIZE bigFile)).failedAt
        = some 2 ∧
    (tUploadParts failAt2Store 1 (telegramChunks MAX_PART_SIZE bigFile)).failedAt
        = some 2 ∧
    ((discordUpload hashFn0 failAt2Store true [] "alice" "big.bin" bigFile).result
        = UploadResult.chunkFailed 2 ∧
      (discordUpload hashFn0 failAt2Store true [] "alice" "big.bin" bigFile).drive
        = [] ∧
      (discordUpload hashFn0 failAt2Store true [] "alice" "big.bin" bigFile).deleteCalls
        = [] ∧
      (telegramUpload failAt2Store [] "big.bin" bigFile).result
        = UploadResult.chunkFailed 2 ∧
      (telegramUpload failAt2Store [] "big.bin" bigFile).db = [] ∧
      (telegramUpload failAt2Store [] "big.bin" bigFile).deleteCalls
        = (telegramUpload failAt2Store [] "big.bin" bigFile).stored ∧
      (telegramUpload failAt2Store [] "big.bin" bigFile).stored.length = 2 - 1) := by
  have hC : 1 ≤ MAX_PART_SIZE := by decide
  have hd : (uploadParts hashFn0 failAt2Store 1
      (discordChunks MAX_PART_SIZE bigFile)).failedAt = some 2 := by
    rw [show bigFile = List.replicate (2 * MAX_PART_SIZE + 1) 7 from rfl,
      discordChunks_replicate3 hC 7]
    simp [uploadParts, failAt2Store]
  have ht : (tUploadParts failAt2Store 1
      (telegramChunks MAX_PART_SIZE bigFile)).failedAt = some 2 := by
    rw [show bigFile = List.replicate (2 * MAX_PART_SIZE + 1) 7 from rfl,
      telegramChunks_replicate3 hC 7]
    simp [tUploadParts, failAt2Store]
  exact ⟨rfl, rfl, hd, ht,
    upload_failure_rollback_amended hashFn0 failAt2Store true [] "alice" "big.bin"
      bigFile [] 2 rfl rfl hd ht⟩

/-- C5: for a manifest of `n` entries a successful download issues exactly
`n` transport fetch calls, one per entry in stored manifest order; if the
fetch for entry `j` fails (all earlier ones succeeding), exactly `j` fetch
calls occur in total, the partially written output is discarded, and the
failure names part `j`; no entry is skipped or retried.  Both variants. -/
theorem download_fetch_calls (fetch : Nat → Option Bytes) (drive : DriveMap)
    (owner filename : String) (manifest : Manifest) (db : TDb)
    (tfname : String) (l : Nat) (ls : List Nat)
    (hm : alookup ((alookup drive owner).getD []) filename = some manifest)
    (hdb : alookup db tfname = some (l :: ls)) :
    ((∀ m ∈ manifest.map Prod.snd, (fetch m).isSome) →
      (discordDownload fetch drive owner filename).result = DownloadResult.ok ∧
      (discordDownload fetch drive owner filename).calls = manifest.map Prod.snd) ∧
    (∀ pre mid post, manifest.map Prod.snd = pre ++ mid :: post →
      (∀ x ∈ pre, (fetch x).isSome) → fetch mid = none →
      (discordDownload fetch drive owner filename).result
          = DownloadResult.failedAt (pre.length + 1) ∧
      (discordDownload fetch drive owner filename).calls = pre ++ [mid] ∧
      (discordDownload fetch drive owner filename).output = none) ∧
    ((∀ m ∈ l :: ls, (fetch m).isSome) →
      (tDownload fetch db tfname).result = DownloadResult.ok ∧
      (tDownload fetch db tfname).calls = l :: ls) ∧
    (∀ pre mid post, l :: ls = pre ++ mid :: post →
      (∀ x ∈ pre, (fetch x).isSome) → fetch mid = none →
      (tDownload fetch db tfname).result = DownloadResult.failedAt (pre.length + 1) ∧
      (tDownload fetch db tfname).calls = pre ++ [mid] ∧
      (tDownload fetch db tfname).output = none) := by
  refine ⟨?_, ?_, ?_, ?_⟩
  · intro hall
    obtain ⟨hca, hfa⟩ := fetchParts_ok fetch (manifest.map Prod.snd) 1 hall
    obtain ⟨hres, hcalls, _⟩ :=
      discordDownload_found_ok fetch drive owner filename manifest hm hfa
    exact ⟨hres, hcalls.trans hca⟩
  · intro pre mid post hsplit hpre hmid
    obtain ⟨hca, hfa⟩ := fetchParts_fail fetch hmid pre 1 post hpre
    rw [← hsplit] at hca hfa
    obtain ⟨hres, hcalls, hout⟩ :=
      discordDownload_found_fail fetch drive owner filename manifest
        (1 + pre.length) hm hfa
    have hcomm : 1 + pre.length = pre.length + 1 := Nat.add_comm 1 _
    rw [hcomm] at hres
    exact ⟨hres, hcalls.trans hca, hout⟩
  · intro hall
    obtain ⟨hca, hfa⟩ := fetchParts_ok fetch (l :: ls) 1 hall
    obtain ⟨hres, hcalls, _⟩ := tDownload_found_ok fetch db tfname l ls hdb hfa
    exact ⟨hres, hcalls.trans hca⟩
  · intro pre mid post hsplit hpre hmid
    obtain ⟨hca, hfa⟩ := fetchParts_fail fetch hmid pre 1 post hpre
    rw [← hsplit] at hca hfa
    obtain ⟨hres, hcalls, hout⟩ :=
      tDownload_found_fail fetch db tfname l ls (1 + pre.length) hdb hfa
    have hcomm : 1 + pre.length = pre.length + 1 := Nat.add_comm 1 _
    rw [hcomm] at hres
    exact ⟨hres, hcalls.trans hca, hout⟩

/-- Witness for C5: a two-entry manifest in the drive and a two-link row in
the backend database (the fetch oracle is arbitrary; both top-level
hypotheses are about the stored metadata only). -/
theorem download_fetch_calls_witness :
    alookup ((alookup ([("alice", [("f.txt", [("h1", 11), ("h2", 12)])])] : DriveMap)
        "alice").getD []) "f.txt" = some [("h1", 11), ("h2", 12)] ∧
    alookup ([("g.txt", [21, 22])] : TDb) "g.txt" = some (21 :: [22]) ∧
    (((∀ m ∈ ([("h1", 11), ("h2", 12)] : Manifest).map Prod.snd,
        ((fun _ => none : Nat → Option Bytes) m).isSome) →
      (discordDownload (fun _ => none) [("alice", [("f.txt", [("h1", 11), ("h2", 12)])])]
          "alice" "f.txt").result = DownloadResult.ok ∧
      (discordDownload (fun _ => none) [("alice", [("f.txt", [("h1", 11), ("h2", 12)])])]
          "alice" "f.txt").calls = ([("h1", 11), ("h2", 12)] : Manifest).map Prod.snd) ∧
    (∀ pre mid post, ([("h1", 11), ("h2", 12)] : Manifest).map Prod.snd
          = pre ++ mid :: post →
      (∀ x ∈ pre, ((fun _ => none : Nat → Option Bytes) x).isSome) →
      (fun _ => none : Nat → Option Bytes) mid = none →
      (discordDownload (fun _ => none) [("alice", [("f.txt", [("h1", 11), ("h2", 12)])])]
          "alice" "f.txt").result = DownloadResult.failedAt (pre.length + 1) ∧
      (discordDownload (fun _ => none) [("alice", [("f.txt", [("h1", 11), ("h2", 12)])])]
          "alice" "f.txt").calls = pre ++ [mid] ∧
      (discordDownload (fun _ => none) [("alice", [("f.txt", [("h1", 11), ("h2", 12)])])]
          "alice" "f.txt").output = none) ∧
    ((∀ m ∈ 21 :: [22], ((fun _ => none : Nat → Option Bytes) m).isSome) →
      (tDownload (fun _ => none) [("g.txt", [21, 22])] "g.txt").result
          = DownloadResult.ok ∧
      (tDownload (fun _ => none) [("g.txt", [21, 22])] "g.txt").calls = 21 :: [22]) ∧
    (∀ pre mid post, 21 :: [22] = pre ++ mid :: post →
      (∀ x ∈ pre, ((fun _ => none : Nat → Option Bytes) x).isSome) →
      (fun _ => none : Nat → Option Bytes) mid = none →
      (tDownload (fun _ => none) [("g.txt", [21, 22])] "g.txt").result
          = DownloadResult.failedAt (pre.length + 1) ∧
      (tDownload (fun _ => none) [("g.txt", [21, 22])] "g.txt").calls = pre ++ [mid] ∧
      (tDownload (fun _ => none) [("g.txt", [21, 22])] "g.txt").output = none)) :=
  ⟨rfl, rfl,
    download_fetch_calls (fun _ => none)
      [("alice", [("f.txt", [("h1", 11), ("h2", 12)])])] "alice" "f.txt"
      [("h1", 11), ("h2", 12)] [("g.txt", [21, 22])] "g.txt" 21 [22] rfl rfl⟩

/-- C6: during `remove`, a per-chunk transport delete answered NotFound is
treated as already satisfied and the loop continues (every chunk still gets
a delete call and the manifest entry is then removed), while a
Forbidden or any other delete error stops the command at once: only the
chunks up to and including the failing one received delete calls, no
manifest removal event occurs, and the persisted drive is unchanged. -/
theorem remove_delete_error_policy (del : Nat → DelResult) (drive : DriveMap)
    (owner f : String) (manifest : Manifest)
    (hm : alookup ((alookup drive owner).getD []) f = some manifest) :
    ((∀ m ∈ manifest.map Prod.snd, del m = DelResult.ok ∨ del m = DelResult.notFound) →
      (removeFiles del owner [f] drive).1
          = (manifest.map Prod.snd).map (REvent.delCall f) ++ [REvent.manifestRemove f]) ∧
    (∀ pre mid post, manifest.map Prod.snd = pre ++ mid :: post →
      (∀ x ∈ pre, del x = DelResult.ok ∨ del x = DelResult.notFound) →
      (del mid = DelResult.forbidden ∨ del mid = DelResult.err) →
      (removeFiles del owner [f] drive).1
          = pre.map (REvent.delCall f) ++ [REvent.delCall f mid] ∧
      (removeFiles del owner [f] drive).2 = drive) := by
  constructor
  · intro htol
    have hd := deleteParts_tolerated del f (manifest.map Prod.snd) htol
    simp only [removeFiles, hm, hd, if_true]
    simp [removeFiles]
  · intro pre mid post hsplit hpre hmid
    have hd := deleteParts_aborts del f hmid pre hpre post
    rw [← hsplit] at hd
    constructor <;>
      simp only [removeFiles, hm, hd, Bool.false_eq_true, if_false]

/-- A delete oracle answering NotFound for message id 12 and Ok elsewhere. -/
def mixedDel : Nat → DelResult := fun m => if m = 12 then DelResult.notFound else DelResult.ok

/-- Witness for C6: a three-chunk manifest (the delete oracle tolerates every
chunk, id 12 answering NotFound). -/
theorem remove_delete_error_policy_witness :
    alookup ((alookup ([("alice", [("f.txt", [("h1", 11), ("h2", 12), ("h3", 13)])])] :
        DriveMap) "alice").getD []) "f.txt" = some [("h1", 11), ("h2", 12), ("h3", 13)] ∧
    (((∀ m ∈ ([("h1", 11), ("h2", 12), ("h3", 13)] : Manifest).map Prod.snd,
        mixedDel m = DelResult.ok ∨ mixedDel m = DelResult.notFound) →
      (removeFiles mixedDel "alice" ["f.txt"]
          [("alice", [("f.txt", [("h1", 11), ("h2", 12), ("h3", 13)])])]).1
        = (([("h1", 11), ("h2", 12), ("h3", 13)] : Manifest).map Prod.snd).map
            (REvent.delCall "f.txt") ++ [REvent.manifestRemove "f.txt"]) ∧
    (∀ pre mid post,
      ([("h1", 11), ("h2", 12), ("h3", 13)] : Manifest).map Prod.snd
          = pre ++ mid :: post →
      (∀ x ∈ pre, mixedDel x = DelResult.ok ∨ mixedDel x = DelResult.notFound) →
      (mixedDel mid = DelResult.forbidden ∨ mixedDel mid = DelResult.err) →
      (removeFiles mixedDel "alice" ["f.txt"]
          [("alice", [("f.txt", [("h1", 11), ("h2", 12), ("h3", 13)])])]).1
        = pre.map (REvent.delCall "f.txt") ++ [REvent.delCall "f.txt" mid] ∧
      (removeFiles mixedDel "alice" ["f.txt"]
          [("alice", [("f.txt", [("h1", 11), ("h2", 12), ("h3", 13)])])]).2
        = [("alice", [("f.txt", [("h1", 11), ("h2", 12), ("h3", 13)])])])) :=
  ⟨rfl, remove_delete_error_policy mixedDel
    [("alice", [("f.txt", [("h1", 11), ("h2", 12), ("h3", 13)])])] "alice" "f.txt"
    [("h1", 11), ("h2", 12), ("h3", 13)] rfl⟩

/-- C7: removing the wildcard `all` for an owner with at least one file
issues a transport delete for every chunk of every file (each file's block
of delete calls coming strictly before that file's manifest-removal event),
tolerating NotFound answers, and finally leaves the owner with zero manifest
entries: the owner key itself is pruned from the drive. -/
theorem remove_all_clears_owner (del : Nat → DelResult) (drive : DriveMap)
    (owner : String) (ufs : AList Manifest)
    (hu : alookup drive owner = some ufs) (hne : ufs ≠ [])
    (hnod : (drive.map Prod.fst).Nodup)
    (htol : ∀ p ∈ ufs, ∀ e ∈ p.2,
      del e.2 = DelResult.ok ∨ del e.2 = DelResult.notFound) :
    (discordRemove del drive owner ["all"]).1
        = (ufs.map fun p => (p.2.map fun e => REvent.delCall p.1 e.2) ++
            [REvent.manifestRemove p.1]).flatten ∧
    (discordRemove del drive owner ["all"]).2 = aerase drive owner ∧
    alookup (discordRemove del drive owner ["all"]).2 owner = none := by
  have hstep : discordRemove del drive owner ["all"]
      = removeFiles del owner (ufs.map Prod.fst) drive := by
    simp only [discordRemove, hu, Option.getD_some, List.contains_cons,
      beq_self_eq_true, Bool.true_or, if_true,
      isEmpty_false_of_ne_nil hne, Bool.false_eq_true, if_false]
  rw [hstep, removeFiles_tolerated del owner ufs drive hu htol]
  refine ⟨?_, ?_, ?_⟩
  · rfl
  · simp only [isEmpty_false_of_ne_nil hne, Bool.false_eq_true, if_false]
  · simp only [isEmpty_false_of_ne_nil hne, Bool.false_eq_true, if_false]
    exact alookup_aerase drive owner hnod

/-- Witness for C7: an owner with two files (three chunks in total), the
delete for message id 12 answering NotFound and the others Ok. -/
theorem remove_all_clears_owner_witness :
    alookup ([("alice", [("a.txt", [("h1", 11)]), ("b.txt", [("h2", 12), ("h3", 13)])])] :
        DriveMap) "alice"
        = some [("a.txt", [("h1", 11)]), ("b.txt", [("h2", 12), ("h3", 13)])] ∧
    ([("a.txt", [("h1", 11)]), ("b.txt", [("h2", 12), ("h3", 13)])] :
        AList Manifest) ≠ [] ∧
    (([("alice", [("a.txt", [("h1", 11)]), ("b.txt", [("h2", 12), ("h3", 13)])])] :
        DriveMap).map Prod.fst).Nodup ∧
    (∀ p ∈ ([("a.txt", [("h1", 11)]), ("b.txt", [("h2", 12), ("h3", 13)])] :
        AList Manifest), ∀ e ∈ p.2,
      mixedDel e.2 = DelResult.ok ∨ mixedDel e.2 = DelResult.notFound) ∧
    ((discordRemove mixedDel
        [("alice", [("a.txt", [("h1", 11)]), ("b.txt", [("h2", 12), ("h3", 13)])])]
        "alice" ["all"]).1
        = (([("a.txt", [("h1", 11)]), ("b.txt", [("h2", 12), ("h3", 13)])] :
            AList Manifest).map fun p =>
              (p.2.map fun e => REvent.delCall p.1 e.2) ++
                [REvent.manifestRemove p.1]).flatten ∧
      (discordRemove mixedDel
        [("alice", [("a.txt", [("h1", 11)]), ("b.txt", [("h2", 12), ("h3", 13)])])]
        "alice" ["all"]).2
        = aerase [("alice", [("a.txt", [("h1", 11)]), ("b.txt", [("h2", 12), ("h3", 13)])])]
            "alice" ∧
      alookup (discordRemove mixedDel
        [("alice", [("a.txt", [("h1", 11)]), ("b.txt", [("h2", 12), ("h3", 13)])])]
        "alice" ["all"]).2 "alice" = none) :=
  ⟨rfl, by decide, by decide, by decide,
    remove_all_clears_owner mixedDel
      [("alice", [("a.txt", [("h1", 11)]), ("b.txt", [("h2", 12), ("h3", 13)])])]
      "alice" [("a.txt", [("h1", 11)]), ("b.txt", [("h2", 12), ("h3", 13)])]
      rfl (by decide) (by decide) (by decide)⟩

end DriveBot
